import Mathlib

/-
Verification of the dual-number forward-mode evaluator described by the
repository specification.  The repository `src/forward_ad_usage.py` is a
tutorial script exercising an external forward-mode automatic
differentiation engine; the engine itself (scope management, `make_dual`,
`unpack_dual`, dual arithmetic) is not part of the repository source, so
those parts are modelled from the specification.  The functions that do
appear in the source (`fn`, the custom `Fn` with its `forward`/`jvp`
rules, the module-patching and `functional_call` usage) are translated
from the source.
-/

namespace ForwardAD

/-- Dual value: a pair of a primal and a tangent, as in the data model
section of the specification. -/
structure Dual (R : Type) where
  primal : R
  tangent : R
deriving DecidableEq, Repr

/-- Modelled from the spec: the engine is missing from src; dual addition
follows the sum rule: primal of the sum is the sum of primals, tangent of
the sum is the sum of tangents. -/
def dualAdd {R : Type} [CommRing R] (x y : Dual R) : Dual R :=
  ⟨x.primal + y.primal, x.tangent + y.tangent⟩

/-- Modelled from the spec: the engine is missing from src; dual
multiplication follows the product rule. -/
def dualMul {R : Type} [CommRing R] (x y : Dual R) : Dual R :=
  ⟨x.primal * y.primal, x.tangent * y.primal + x.primal * y.tangent⟩

/-- Modelled from the spec: the engine is missing from src; dual natural
power follows the power rule d(x^n) = n * x^(n-1) * dx. -/
def dualPow {R : Type} [CommRing R] (x : Dual R) (n : ℕ) : Dual R :=
  ⟨x.primal ^ n, (n : R) * x.primal ^ (n - 1) * x.tangent⟩

/-- Translated from src line 33: fn(x, y) = x ** 2 + y ** 2, evaluated in
dual arithmetic. -/
def fn {R : Type} [CommRing R] (x y : Dual R) : Dual R :=
  dualAdd (dualPow x 2) (dualPow y 2)

/-- Translated from src lines 131-137: Fn.forward computes
result = exp(foo), stores result in ctx for the jvp rule, and returns it.
The exponential map of the numeric backend is passed as the argument E.
The returned pair is (result, ctx.result). -/
def Fn.forward {R : Type} (E : R → R) (foo : R) : R × R :=
  (E foo, E foo)

/-- Translated from src lines 139-145: Fn.jvp returns gO = gI * ctx.result
(the stored intermediate is consumed afterwards). -/
def Fn.jvp {R : Type} [CommRing R] (ctxResult gI : R) : R :=
  gI * ctxResult

/-- Modelled from the spec: the engine is missing from src; applying a
custom operation to a dual value runs the forward rule on the primal and
the jvp rule on the tangent, the latter reading the state retained by the
forward rule. -/
def Fn.applyDual {R : Type} [CommRing R] (E : R → R) (x : Dual R) : Dual R :=
  let fwdRes := Fn.forward E x.primal
  ⟨fwdRes.1, Fn.jvp fwdRes.2 x.tangent⟩

/-- Modelled from the spec: a value flowing through the evaluator is
either a plain (non-dual) value or a dual value. -/
inductive DVal (R : Type) where
  | plain : R → DVal R
  | dual : Dual R → DVal R
deriving DecidableEq, Repr

/-- Modelled from the spec: the engine is missing from src; addition on
evaluator values.  When only one operand carries a tangent, only that
tangent contributes to the result. -/
def dvalAdd {R : Type} [CommRing R] : DVal R → DVal R → DVal R
  | .plain a, .plain b => .plain (a + b)
  | .plain a, .dual y => .dual ⟨a + y.primal, y.tangent⟩
  | .dual x, .plain b => .dual ⟨x.primal + b, x.tangent⟩
  | .dual x, .dual y => .dual (dualAdd x y)

/-- Modelled from the spec: the engine is missing from src; multiplication
on evaluator values, with the product rule degenerating to scaling when
one operand is plain. -/
def dvalMul {R : Type} [CommRing R] : DVal R → DVal R → DVal R
  | .plain a, .plain b => .plain (a * b)
  | .plain a, .dual y => .dual ⟨a * y.primal, a * y.tangent⟩
  | .dual x, .plain b => .dual ⟨x.primal * b, x.tangent * b⟩
  | .dual x, .dual y => .dual (dualMul x y)

/-- Modelled from the spec: the engine is missing from src; natural power
on evaluator values. -/
def dvalPow {R : Type} [CommRing R] : DVal R → ℕ → DVal R
  | .plain a, n => .plain (a ^ n)
  | .dual x, n => .dual (dualPow x n)

/-- Translated from src line 33 lifted to evaluator values: the body
x ** 2 + y ** 2 evaluated on possibly mixed plain and dual arguments. -/
def fnD {R : Type} [CommRing R] (x y : DVal R) : DVal R :=
  dvalAdd (dvalPow x 2) (dvalPow y 2)

/-- Parameter names of the linear module of src lines 82-94: weight and
bias. -/
inductive PName where
  | weight
  | bias
deriving DecidableEq, Repr

/-- Module with named attributes holding dual parameter values, one
scalar parameter per name (src lines 85-91 replace each named parameter
of the module by a dual tensor registered as an attribute). -/
structure LinearModule where
  attrs : List (PName × Dual ℚ)
deriving DecidableEq, Repr

/-- Lookup of a named attribute, first binding wins. -/
def lookupAttr (n : PName) : List (PName × Dual ℚ) → Option (Dual ℚ)
  | [] => none
  | (k, v) :: rest => if k = n then some v else lookupAttr n rest

/-- Modelled from the spec: the linear forward computation of nn.Linear is
missing from src; scalar form out = weight * input + bias evaluated in
dual arithmetic. -/
def linForward (w b x : Dual ℚ) : Dual ℚ :=
  dualAdd (dualMul w x) b

/-- Stateful evaluation of src line 93: model(input) reads the patched
attributes of the module object. -/
def callModule (m : LinearModule) (x : Dual ℚ) : Option (Dual ℚ) :=
  match lookupAttr .weight m.attrs, lookupAttr .bias m.attrs with
  | some w, some b => some (linForward w b x)
  | _, _ => none

/-- Translated from src lines 90-91: delattr(model, name) followed by
setattr(model, name, dual). -/
def setAttr (m : LinearModule) (n : PName) (v : Dual ℚ) : LinearModule :=
  ⟨(n, v) :: m.attrs.filter (fun e => e.1 ≠ n)⟩

/-- Translated from src lines 89-91: patch every named parameter of the
module with its dual value. -/
def patchAll (m : LinearModule) (duals : List (PName × Dual ℚ)) :
    LinearModule :=
  duals.foldl (fun acc nv => setAttr acc nv.1 nv.2) m

/-- Modelled from the spec: functional_call is missing from src; stateless
evaluation of src line 114 with an explicit mapping from parameter name
to dual value, reading the mapping first and falling back to the module
attributes, without mutating the module. -/
def functional_call (m : LinearModule) (duals : List (PName × Dual ℚ))
    (x : Dual ℚ) : Option (Dual ℚ) :=
  let getp := fun n =>
    match lookupAttr n duals with
    | some v => some v
    | none => lookupAttr n m.attrs
  match getp .weight, getp .bias with
  | some w, some b => some (linForward w b x)
  | _, _ => none

/-- Tensor model: an object identity (to state instance identity versus
value equality), a shape, a memory-layout tag and the flat list of logical
element values. -/
structure Tensor where
  id : Nat
  shape : List Nat
  layout : Nat
  data : List ℚ
deriving DecidableEq, Repr

/-- Modelled from the spec: the engine is missing from src; evaluator
state.  Scopes form a stack of handles; assoc records, for each dual
tensor id, the scope that created the association and the tangent
tensor. -/
structure FwState where
  scopes : List Nat
  nextScope : Nat
  nextId : Nat
  assoc : List (Nat × Nat × Tensor)
deriving DecidableEq, Repr

/-- Modelled from the spec: errors reported by make_dual. -/
inductive MkError where
  | shapeMismatch
  | noActiveScope
deriving DecidableEq, Repr

/-- Modelled from the spec: error reported when exiting a scope that is
active but not the innermost one. -/
inductive ExitError where
  | notInnermost
deriving DecidableEq, Repr

/-- Modelled from the spec: enter_scope begins a differentiation region,
pushing a fresh handle on the scope stack. -/
def enter_scope (s : FwState) : Nat × FwState :=
  (s.nextScope,
   { scopes := s.nextScope :: s.scopes, nextScope := s.nextScope + 1,
     nextId := s.nextId, assoc := s.assoc })

/-- Modelled from the spec: make_dual pairs a primal with a tangent.  A
shape mismatch is a reported error and the computation does not proceed;
calling outside any active scope is a reported error; if the layout of
the tangent differs from that of the primal the values of the tangent are
copied into a new tensor with the same metadata as the primal, otherwise
the tangent itself is used as-is; the dual tensor is a view of the
primal. -/
def make_dual (s : FwState) (primal tangent : Tensor) :
    Except MkError (Tensor × FwState) :=
  if primal.shape ≠ tangent.shape then .error .shapeMismatch
  else
    match s.scopes with
    | [] => .error .noActiveScope
    | h :: _ =>
      let t : Tensor :=
        if tangent.layout = primal.layout then tangent
        else { id := s.nextId, shape := tangent.shape,
               layout := primal.layout, data := tangent.data }
      let d : Tensor :=
        { id := s.nextId + 1, shape := primal.shape,
          layout := primal.layout, data := primal.data }
      .ok (d, { scopes := s.scopes, nextScope := s.nextScope,
                nextId := s.nextId + 2, assoc := (d.id, h, t) :: s.assoc })

/-- Modelled from the spec: unpack_dual returns the primal always (the
dual tensor is a view of the primal) and the tangent only when the value
still carries a live tangent association created by the currently active
scope; otherwise it returns the explicit no-tangent marker none. -/
def unpack_dual (s : FwState) (v : Tensor) : Tensor × Option Tensor :=
  (v,
   match s.scopes with
   | [] => none
   | h :: _ =>
     match s.assoc.find? (fun e => e.1 == v.id && e.2.1 == h) with
     | some e => some e.2.2
     | none => none)

/-- Modelled from the spec: exit_scope detaches all tangent associations
created within the given scope and pops it from the stack.  Exiting a
scope that is still active but not innermost is a reported error; exiting
a scope that is no longer on the stack is a no-op, making teardown
idempotent. -/
def exit_scope (h : Nat) (s : FwState) : Except ExitError FwState :=
  match s.scopes with
  | [] => .ok s
  | top :: rest =>
    if top = h then
      .ok { scopes := rest, nextScope := s.nextScope, nextId := s.nextId,
            assoc := s.assoc.filter (fun e => e.2.1 != h) }
    else if h ∈ rest then .error .notInnermost
    else .ok s

/-- C1: for the elementary operations add, multiply, power and the custom
exponential operation Fn on dual values, the primal of the result equals
the operation applied to the input primals, and the tangent equals the
analytic derivative at the primal times the input tangent (sum and
product rules for the two-argument operations); in particular Fn
propagates the incoming tangent multiplied by exp of the primal. -/
theorem C1_elementary_ops (x y : Dual ℝ) (n : ℕ) :
    (dualAdd x y).primal = x.primal + y.primal ∧
    (dualAdd x y).tangent = x.tangent + y.tangent ∧
    (dualMul x y).primal = x.primal * y.primal ∧
    (dualMul x y).tangent = x.tangent * y.primal + x.primal * y.tangent ∧
    (dualPow x n).primal = x.primal ^ n ∧
    (dualPow x n).tangent = deriv (fun u : ℝ => u ^ n) x.primal * x.tangent ∧
    (Fn.applyDual Real.exp x).primal = Real.exp x.primal ∧
    (Fn.applyDual Real.exp x).tangent = x.tangent * Real.exp x.primal ∧
    (Fn.applyDual Real.exp x).tangent = deriv Real.exp x.primal * x.tangent := by
  refine ⟨rfl, rfl, rfl, rfl, rfl, ?_, rfl, rfl, ?_⟩
  · simp [dualPow, deriv_pow]
  · simp [Fn.applyDual, Fn.forward, Fn.jvp, Real.deriv_exp, mul_comm]

/-- C4: combining a plain (non-dual) value with a dual value gives the
same result as combining the dual value obtained by pairing the plain
value with a zero tangent, for addition, multiplication and the function
fn of the source applied to a dual and a plain argument. -/
theorem C4_plain_is_zero_tangent {R : Type} [CommRing R] (a b : R)
    (x y : Dual R) :
    dvalAdd (.plain a) (.dual y) = dvalAdd (.dual ⟨a, 0⟩) (.dual y) ∧
    dvalAdd (.dual x) (.plain b) = dvalAdd (.dual x) (.dual ⟨b, 0⟩) ∧
    dvalMul (.plain a) (.dual y) = dvalMul (.dual ⟨a, 0⟩) (.dual y) ∧
    dvalMul (.dual x) (.plain b) = dvalMul (.dual x) (.dual ⟨b, 0⟩) ∧
    fnD (.dual x) (.plain b) = fnD (.dual x) (.dual ⟨b, 0⟩) := by
  refine ⟨?_, ?_, ?_, ?_, ?_⟩ <;>
    simp [dvalAdd, dvalMul, dvalPow, fnD, dualAdd, dualMul, dualPow]

/-- C5: evaluating fn(x, y) = x^2 + y^2 on a dual x with primal 3 and
tangent 1 and a dual y with primal 4 and tangent 0 gives output tangent
2*3*1 + 2*4*0 = 6. -/
theorem C5_scenario_tangent_six :
    (fn (⟨3, 1⟩ : Dual ℚ) ⟨4, 0⟩).tangent = 2 * 3 * 1 + 2 * 4 * 0 ∧
    (fn (⟨3, 1⟩ : Dual ℚ) ⟨4, 0⟩).tangent = 6 := by
  constructor <;> norm_num [fn, dualAdd, dualPow]

/-- C7: when the shapes of primal and tangent differ, make_dual reports
the shape-mismatch error and never returns a dual value, so the
computation does not proceed. -/
theorem C7_shape_mismatch_reported (s : FwState) (p t : Tensor)
    (h : p.shape ≠ t.shape) :
    make_dual s p t = .error .shapeMismatch ∧
    ∀ d s₂, make_dual s p t ≠ .ok (d, s₂) := by
  refine ⟨by simp [make_dual, h], ?_⟩
  intro d s₂ hc
  simp [make_dual, h] at hc

/-- C7 counterexample: a mismatch of layouts alone (equal shapes, layouts
0 and 1) is not an error: make_dual succeeds, pairing the primal with a
layout-matching copy of the tangent, so the claim's layout disjunct is
false. -/
theorem C7_layout_only_mismatch_succeeds :
    (⟨0, [2], 0, [1, 2]⟩ : Tensor).shape = (⟨1, [2], 1, [5, 6]⟩ : Tensor).shape ∧
    (⟨0, [2], 0, [1, 2]⟩ : Tensor).layout ≠ (⟨1, [2], 1, [5, 6]⟩ : Tensor).layout ∧
    make_dual ⟨[7], 8, 5, []⟩ ⟨0, [2], 0, [1, 2]⟩ ⟨1, [2], 1, [5, 6]⟩
      = .ok (⟨6, [2], 0, [1, 2]⟩,
          ⟨[7], 8, 7, [(6, 7, ⟨5, [2], 0, [5, 6]⟩)]⟩) :=
  ⟨rfl, by decide, rfl⟩

/-- C7 witness: a concrete shape mismatch. -/
theorem C7_shape_mismatch_reported_witness :
    make_dual ⟨[0], 1, 0, []⟩ ⟨0, [2, 2], 0, [1, 2, 3, 4]⟩
        ⟨1, [4], 0, [1, 2, 3, 4]⟩ = .error .shapeMismatch ∧
    ∀ d s₂, make_dual ⟨[0], 1, 0, []⟩ ⟨0, [2, 2], 0, [1, 2, 3, 4]⟩
        ⟨1, [4], 0, [1, 2, 3, 4]⟩ ≠ .ok (d, s₂) :=
  C7_shape_mismatch_reported _ _ _ (by decide)

/-- C10: patching the dual parameters as attributes of the stateful
module and evaluating it gives the same output, and in particular the
same Jacobian-vector product (tangent), as evaluating through the
stateless functional_call with the explicit name-to-dual mapping, for
the same primals and tangents. -/
theorem C10_stateful_functional_equiv (m : LinearModule) (dw db x : Dual ℚ) :
    callModule (patchAll m [(.weight, dw), (.bias, db)]) x
      = functional_call m [(.weight, dw), (.bias, db)] x ∧
    ∀ o₁ o₂ : Dual ℚ,
      callModule (patchAll m [(.weight, dw), (.bias, db)]) x = some o₁ →
      functional_call m [(.weight, dw), (.bias, db)] x = some o₂ →
      o₁.tangent = o₂.tangent := by
  have h1 : callModule (patchAll m [(.weight, dw), (.bias, db)]) x
      = some (linForward dw db x) := by
    simp [patchAll, setAttr, callModule, lookupAttr]
  have h2 : functional_call m [(.weight, dw), (.bias, db)] x
      = some (linForward dw db x) := by
    simp [functional_call, lookupAttr]
  refine ⟨h1.trans h2.symm, ?_⟩
  intro o₁ o₂ ho₁ ho₂
  rw [h1] at ho₁
  rw [h2] at ho₂
  rw [← Option.some_inj.mp ho₁, ← Option.some_inj.mp ho₂]

/-- Helper: in a state whose associations have been filtered free of
scope h, a value all of whose associations were created by scope h
unpacks to the no-tangent marker. -/
theorem unpack_none_of_filtered (s₁ : FwState) (h : Nat) (scs : List Nat)
    (nsc nid : Nat) (v : Tensor)
    (hv : ∀ e ∈ s₁.assoc, e.1 = v.id → e.2.1 = h) :
    (unpack_dual ⟨scs, nsc, nid,
        s₁.assoc.filter (fun e => e.2.1 != h)⟩ v).2 = none := by
  cases scs with
  | nil => rfl
  | cons h₂ r₂ =>
    have hnone : (s₁.assoc.filter (fun e => e.2.1 != h)).find?
        (fun e => e.1 == v.id && e.2.1 == h₂) = none := by
      rw [List.find?_eq_none]
      intro e he hpe
      rw [List.mem_filter] at he
      rw [Bool.and_eq_true, beq_iff_eq, beq_iff_eq] at hpe
      have : e.2.1 = h := hv e he.1 hpe.1
      rw [bne_iff_ne] at he
      exact he.2 this
    simp only [unpack_dual, hnone]

/-- C2: round-trip through make_dual and unpack_dual inside an active
scope.  The primal is preserved and the dual is a view of it; when the
layout of the tangent matches that of the primal the identical tangent
instance is returned, and when the layouts differ the returned tangent is
value-equal to the given one but a distinct instance. -/
theorem C2_roundtrip (s : FwState) (hs : Nat) (rest : List Nat)
    (p t : Tensor) (hsc : s.scopes = hs :: rest) (hsh : p.shape = t.shape)
    (hfresh : t.id < s.nextId) :
    ∃ d s₂, make_dual s p t = .ok (d, s₂) ∧
      (unpack_dual s₂ d).1 = d ∧ d.data = p.data ∧ d.shape = p.shape ∧
      (t.layout = p.layout → (unpack_dual s₂ d).2 = some t) ∧
      (t.layout ≠ p.layout →
        ∃ t₂, (unpack_dual s₂ d).2 = some t₂ ∧ t₂.data = t.data ∧
          t₂.shape = t.shape ∧ t₂.id ≠ t.id) := by
  by_cases hl : t.layout = p.layout
  · refine ⟨⟨s.nextId + 1, p.shape, p.layout, p.data⟩,
      ⟨hs :: rest, s.nextScope, s.nextId + 2,
        (s.nextId + 1, hs, t) :: s.assoc⟩, ?_, rfl, rfl, rfl, ?_, ?_⟩
    · simp [make_dual, hsc, hsh, hl]
    · intro _
      simp [unpack_dual, List.find?]
    · intro hcon
      exact absurd hl hcon
  · refine ⟨⟨s.nextId + 1, p.shape, p.layout, p.data⟩,
      ⟨hs :: rest, s.nextScope, s.nextId + 2,
        (s.nextId + 1, hs,
          ⟨s.nextId, t.shape, p.layout, t.data⟩) :: s.assoc⟩,
      ?_, rfl, rfl, rfl, ?_, ?_⟩
    · simp [make_dual, hsc, hsh, hl]
    · intro hcon
      exact absurd hcon hl
    · intro _
      refine ⟨⟨s.nextId, t.shape, p.layout, t.data⟩, ?_, rfl, rfl, ?_⟩
      · simp [unpack_dual, List.find?]
      · show s.nextId ≠ t.id
        omega

/-- C2 witness: concrete round-trip with matching layouts. -/
theorem C2_roundtrip_witness :
    ∃ d s₂, make_dual ⟨[7], 8, 5, []⟩ ⟨0, [2], 1, [1, 2]⟩
        ⟨1, [2], 1, [5, 6]⟩ = .ok (d, s₂) ∧
      (unpack_dual s₂ d).1 = d ∧ d.data = [1, 2] ∧ d.shape = [2] ∧
      ((1 : Nat) = 1 → (unpack_dual s₂ d).2 = some ⟨1, [2], 1, [5, 6]⟩) ∧
      ((1 : Nat) ≠ 1 →
        ∃ t₂, (unpack_dual s₂ d).2 = some t₂ ∧ t₂.data = [5, 6] ∧
          t₂.shape = [2] ∧ t₂.id ≠ 1) :=
  C2_roundtrip ⟨[7], 8, 5, []⟩ 7 [] ⟨0, [2], 1, [1, 2]⟩ ⟨1, [2], 1, [5, 6]⟩
    rfl rfl (by decide)

/-- C3: exiting the innermost scope detaches every tangent association
created within it, and any subsequent unpack_dual on a value whose
associations all came from that scope returns the no-tangent marker
instead of failing (the primal is still returned). -/
theorem C3_exit_detaches (s₁ : FwState) (h : Nat) (rest : List Nat)
    (hsc : s₁.scopes = h :: rest) (s₂ : FwState)
    (hexit : exit_scope h s₁ = .ok s₂) (v : Tensor)
    (hv : ∀ e ∈ s₁.assoc, e.1 = v.id → e.2.1 = h) :
    (∀ e ∈ s₂.assoc, e.2.1 ≠ h) ∧ (unpack_dual s₂ v).1 = v ∧
    (unpack_dual s₂ v).2 = none := by
  have hs₂ : s₂ = ⟨rest, s₁.nextScope, s₁.nextId,
      s₁.assoc.filter (fun e => e.2.1 != h)⟩ := by
    simp [exit_scope, hsc] at hexit
    exact hexit.symm
  subst hs₂
  refine ⟨?_, rfl, ?_⟩
  · intro e he
    rw [List.mem_filter, bne_iff_ne] at he
    exact he.2
  · exact unpack_none_of_filtered s₁ h rest s₁.nextScope s₁.nextId v hv

/-- C3 witness: a concrete scope exit after which the dual value made in
the scope unpacks to the no-tangent marker. -/
theorem C3_exit_detaches_witness :
    (∀ e ∈ (⟨[], 5, 3, []⟩ : FwState).assoc, e.2.1 ≠ 4) ∧
    (unpack_dual ⟨[], 5, 3, []⟩ ⟨2, [1], 0, [7]⟩).1 = ⟨2, [1], 0, [7]⟩ ∧
    (unpack_dual ⟨[], 5, 3, []⟩ ⟨2, [1], 0, [7]⟩).2 = none :=
  C3_exit_detaches ⟨[4], 5, 3, [(2, 4, ⟨1, [1], 0, [5]⟩)]⟩ 4 [] rfl
    ⟨[], 5, 3, []⟩ rfl ⟨2, [1], 0, [7]⟩ (by decide)

/-- C6: unpacking a value with no live tangent association is not an
error: unpack_dual still returns the primal and yields the explicit
no-tangent marker, which is distinct from any actual tangent tensor and
in particular from a zero-filled one. -/
theorem C6_absence_marker (s : FwState) (v : Tensor)
    (hv : ∀ e ∈ s.assoc, e.1 ≠ v.id) :
    (unpack_dual s v).1 = v ∧ (unpack_dual s v).2 = none ∧
    ∀ z : Tensor, (unpack_dual s v).2 ≠ some z := by
  have hmain : (unpack_dual s v).2 = none := by
    cases hscs : s.scopes with
    | nil => simp [unpack_dual, hscs]
    | cons h₂ r₂ =>
      have hnone : s.assoc.find?
          (fun e => e.1 == v.id && e.2.1 == h₂) = none := by
        rw [List.find?_eq_none]
        intro e he hpe
        rw [Bool.and_eq_true, beq_iff_eq, beq_iff_eq] at hpe
        exact hv e he hpe.1
      simp [unpack_dual, hscs, hnone]
  refine ⟨rfl, hmain, ?_⟩
  intro z
  rw [hmain]
  exact Option.noConfusion

/-- C6 witness: a concrete value with no association in a state with an
active scope. -/
theorem C6_absence_marker_witness :
    (unpack_dual ⟨[3], 4, 9, [(5, 3, ⟨6, [1], 0, [2]⟩)]⟩
        ⟨7, [1], 0, [0]⟩).1 = ⟨7, [1], 0, [0]⟩ ∧
    (unpack_dual ⟨[3], 4, 9, [(5, 3, ⟨6, [1], 0, [2]⟩)]⟩
        ⟨7, [1], 0, [0]⟩).2 = none ∧
    ∀ z : Tensor, (unpack_dual ⟨[3], 4, 9, [(5, 3, ⟨6, [1], 0, [2]⟩)]⟩
        ⟨7, [1], 0, [0]⟩).2 ≠ some z :=
  C6_absence_marker ⟨[3], 4, 9, [(5, 3, ⟨6, [1], 0, [2]⟩)]⟩
    ⟨7, [1], 0, [0]⟩ (by decide)

/-- C8: scope teardown is idempotent.  After a successful exit of the
innermost scope, running exit_scope again for the same handle returns the
same state unchanged, and unpack_dual on values whose associations all
came from that scope still yields the no-tangent marker. -/
theorem C8_exit_idempotent (s₁ : FwState) (h : Nat) (rest : List Nat)
    (hsc : s₁.scopes = h :: rest) (hnd : h ∉ rest) (s₂ : FwState)
    (hexit : exit_scope h s₁ = .ok s₂) :
    exit_scope h s₂ = .ok s₂ ∧
    ∀ v : Tensor, (∀ e ∈ s₁.assoc, e.1 = v.id → e.2.1 = h) →
      (unpack_dual s₂ v).2 = none := by
  have hs₂ : s₂ = ⟨rest, s₁.nextScope, s₁.nextId,
      s₁.assoc.filter (fun e => e.2.1 != h)⟩ := by
    simp [exit_scope, hsc] at hexit
    exact hexit.symm
  subst hs₂
  constructor
  · cases rest with
    | nil => rfl
    | cons top r =>
      rw [List.mem_cons, not_or] at hnd
      have htop : ¬ top = h := fun hc => hnd.1 hc.symm
      simp [exit_scope, htop, hnd.2]
  · intro v hv
    exact unpack_none_of_filtered s₁ h rest s₁.nextScope s₁.nextId v hv

/-- C8 witness: a concrete double teardown. -/
theorem C8_exit_idempotent_witness :
    exit_scope 4 ⟨[], 5, 3, []⟩ = .ok ⟨[], 5, 3, []⟩ ∧
    ∀ v : Tensor,
      (∀ e ∈ (⟨[4], 5, 3, [(2, 4, ⟨1, [1], 0, [5]⟩)]⟩ : FwState).assoc,
        e.1 = v.id → e.2.1 = 4) →
      (unpack_dual ⟨[], 5, 3, []⟩ v).2 = none :=
  C8_exit_idempotent ⟨[4], 5, 3, [(2, 4, ⟨1, [1], 0, [5]⟩)]⟩ 4 []
    rfl (by decide) ⟨[], 5, 3, []⟩ rfl

/-- C9: make_dual produces a dual that is a view of the primal, and
unpack_dual returns that primal component in every state, inside the
creating scope and after it has exited alike; only the tangent component
depends on a live association. -/
theorem C9_primal_always (s : FwState) (p t d : Tensor) (s₂ : FwState)
    (hmk : make_dual s p t = .ok (d, s₂)) :
    d.data = p.data ∧ d.shape = p.shape ∧
    ∀ s₃ : FwState,
      (unpack_dual s₃ d).1 = d ∧ (unpack_dual s₃ d).1.data = p.data := by
  rw [make_dual] at hmk
  split at hmk
  · exact absurd hmk (by simp)
  · split at hmk
    · exact absurd hmk (by simp)
    · rw [Except.ok.injEq, Prod.mk.injEq] at hmk
      have hd : d = ⟨s.nextId + 1, p.shape, p.layout, p.data⟩ := hmk.1.symm
      subst hd
      exact ⟨rfl, rfl, fun s₃ => ⟨rfl, rfl⟩⟩

/-- C9 witness: a concrete make_dual whose result always unpacks to the
primal data. -/
theorem C9_primal_always_witness :
    (⟨6, [2], 1, [1, 2]⟩ : Tensor).data = [1, 2] ∧
    (⟨6, [2], 1, [1, 2]⟩ : Tensor).shape = [2] ∧
    ∀ s₃ : FwState,
      (unpack_dual s₃ ⟨6, [2], 1, [1, 2]⟩).1 = ⟨6, [2], 1, [1, 2]⟩ ∧
      (unpack_dual s₃ ⟨6, [2], 1, [1, 2]⟩).1.data = [1, 2] :=
  C9_primal_always ⟨[7], 8, 5, []⟩ ⟨0, [2], 1, [1, 2]⟩ ⟨1, [2], 1, [5, 6]⟩
    ⟨6, [2], 1, [1, 2]⟩
    ⟨[7], 8, 7, [(6, 7, ⟨1, [2], 1, [5, 6]⟩)]⟩ rfl

end ForwardAD
